import Mathlib

/-!
Verification of the go-ebay search client (src/ebay.go).

The development shallowly embeds the repository: Go strings become byte
sequences (lists of naturals below 256), the net/url Values map becomes an
association list with unique keys, and the query encoding and decoding used
by the repository (url.Values.Encode, url.ParseQuery, url.QueryEscape and
url.QueryUnescape) are translated byte for byte from the Go standard
library, restricted to the query-component escaping mode, which is the only
mode the repository exercises. The HTTP transport and the XML decoder are
external collaborators of the repository; they enter the model as function
parameters, with the decoder typed per the specification of the Response
Decoder (a decode either yields a value or a diagnostic, and a failed
decode leaves the target envelope untouched).
-/

set_option linter.unusedVariables false
set_option maxRecDepth 20000
set_option maxHeartbeats 2000000

namespace Ebay

/-- A Go string is a byte sequence; a byte is a natural number below 256. -/
abbrev GoStr := List Nat

/-- Bytes of an ASCII string literal. Every literal in src/ebay.go is ASCII,
where the code point of each character equals its UTF-8 byte, so mapping
characters to code points yields exactly the Go byte encoding. -/
def ofString (s : String) : GoStr := s.data.map Char.toNat

/-- Every byte of a Go string is below 256 (strings are byte sequences). -/
def ValidStr (s : GoStr) : Prop := ∀ b ∈ s, b < 256

instance (s : GoStr) : Decidable (ValidStr s) := by
  unfold ValidStr
  infer_instance

/-! ### Query escaping, from Go net/url (query-component mode) -/

/-- Bytes Go never escapes: alphanumerics and the marks 45 `-`, 95 `_`,
46 `.`, 126 `~` (shouldEscape returning false in encodeQueryComponent
mode; every other byte is escaped in that mode). -/
def isUnreserved (b : Nat) : Bool :=
  (97 ≤ b && b ≤ 122) || (65 ≤ b && b ≤ 90) || (48 ≤ b && b ≤ 57) ||
    b == 45 || b == 95 || b == 46 || b == 126

/-- Upper-case hexadecimal digit, as in the Go escape routine. -/
def upperHexDigit (n : Nat) : Nat := if n < 10 then 48 + n else 55 + n

/-- Escape one byte for a query component: unreserved bytes stand for
themselves, the space byte 32 becomes 43 `+`, and every other byte becomes
37 `%` followed by two upper-case hex digits. -/
def queryEscapeByte (b : Nat) : GoStr :=
  if isUnreserved b then [b]
  else if b == 32 then [43]
  else [37, upperHexDigit (b / 16), upperHexDigit (b % 16)]

/-- Go url.QueryEscape: escape each byte in query-component mode. -/
def queryEscape (s : GoStr) : GoStr := s.flatMap queryEscapeByte

/-- Value of a hexadecimal digit byte, in the order Go checks them. -/
def hexVal (b : Nat) : Option Nat :=
  if 48 ≤ b ∧ b ≤ 57 then some (b - 48)
  else if 97 ≤ b ∧ b ≤ 102 then some (b - 87)
  else if 65 ≤ b ∧ b ≤ 70 then some (b - 55)
  else none

/-- Go url.QueryUnescape: 37 `%` must be followed by two hex digits (else
the unescape fails), 43 `+` decodes to the space byte 32, every other byte
stands for itself. -/
def queryUnescape : GoStr → Option GoStr
  | [] => some []
  | b :: rest =>
    if b = 37 then
      match rest with
      | h1 :: h2 :: rest2 =>
        match hexVal h1, hexVal h2 with
        | some x, some y => (queryUnescape rest2).map (fun t => (16 * x + y) :: t)
        | _, _ => none
      | _ => none
    else if b = 43 then (queryUnescape rest).map (fun t => 32 :: t)
    else (queryUnescape rest).map (fun t => b :: t)

example : ofString "AB-~" = [65, 66, 45, 126] := by decide
example : queryEscape (ofString "a b&c") = ofString "a+b%26c" := by decide
example : queryUnescape (ofString "a+b%26c") = some (ofString "a b&c") := by decide

/-! ### url.Values as an association list -/

/-- Go url.Values is a map from strings to slices of strings. The model is
an association list; maps built with Add from the empty map have unique
keys, and the lemmas assume uniqueness exactly where Go relies on it. -/
abbrev Values := List (GoStr × List GoStr)

/-- The empty url.Values map. -/
def Values.empty : Values := []

/-- Go Values.Add: append the value to the slice stored under the key; a
fresh key enters the map with a one-element slice. -/
def Values.add : Values → GoStr → GoStr → Values
  | [], k, x => [(k, [x])]
  | (k0, vs) :: rest, k, x =>
    if k0 = k then (k0, vs ++ [x]) :: rest else (k0, vs) :: Values.add rest k x

/-- Keys of the map, in first-insertion order. -/
def keysOf (v : Values) : List GoStr := v.map (·.1)

/-- Go map read v[k]: the slice stored under the first entry with that key
(the only one when keys are unique); a missing key yields the empty slice. -/
def lookupV : Values → GoStr → List GoStr
  | [], _ => []
  | (k0, vs) :: rest, k => if k0 = k then vs else lookupV rest k

/-- Add each value of a slice under one key, in slice order (the inner loop
of buildURL over filters[key]). -/
def addVals : Values → GoStr → List GoStr → Values
  | v, _, [] => v
  | v, k, x :: xs => addVals (Values.add v k x) k xs

/-- The filter-copy loop of buildURL: for each key of the filter map, add
every value stored under it. The Go loop visits the map keys in an
unspecified order; the model fixes the association-list order of the
argument, and the determinism theorem shows the encoded output does not
depend on that order. -/
def addAll : Values → Values → Values
  | v, [] => v
  | v, (k, vs) :: rest => addAll (addVals v k vs) rest

/-! ### Query-string encoding (Values.Encode) and decoding (ParseQuery) -/

/-- Byte-level strings.Cut: split at the first occurrence of the byte; when
the byte is absent the remainder is empty, as in Go where the found flag is
ignored by the caller and the value defaults to the empty string. -/
def cutByte (b : Nat) : GoStr → GoStr × GoStr
  | [] => ([], [])
  | c :: cs =>
    if c = b then ([], cs)
    else
      let p := cutByte b cs
      (c :: p.1, p.2)

/-- Split on every occurrence of the byte (the iterated strings.Cut loop of
ParseQuery); the empty string yields one empty segment, which ParseQuery
then skips. -/
def splitOnByte (b : Nat) : GoStr → List GoStr
  | [] => [[]]
  | c :: cs =>
    if c = b then [] :: splitOnByte b cs
    else
      match splitOnByte b cs with
      | [] => [[c]]
      | t :: ts => (c :: t) :: ts

/-- Join strings with a separator between consecutive elements (the byte 38
the Encode loop writes before every pair except the first). -/
def joinSep (sep : GoStr) : List GoStr → GoStr
  | [] => []
  | [x] => x
  | x :: y :: rest => x ++ sep ++ joinSep sep (y :: rest)

/-- One encoded pair: escapedKey, byte 61, escapedValue. -/
def encodePair (k x : GoStr) : GoStr := queryEscape k ++ 61 :: queryEscape x

/-- Encode a flat pair list, joined by byte 38. -/
def encodeFlat (ps : List (GoStr × GoStr)) : GoStr :=
  joinSep [38] (ps.map fun p => encodePair p.1 p.2)

/-- Byte-lexicographic order on strings, the order of Go sort.Strings. -/
def leB : GoStr → GoStr → Bool
  | [], _ => true
  | _ :: _, [] => false
  | a :: as, b :: bs => if a < b then true else if b < a then false else leB as bs

/-- The byte-lexicographic order as a relation, for the sorting routine. -/
def leR (a b : GoStr) : Prop := leB a b = true

instance : DecidableRel leR := fun a b => by unfold leR; infer_instance

/-- Go Values.Encode: sort the keys byte-lexicographically (sort.Strings),
then emit escapedKey=escapedValue for every value of every key in that
order, joined by byte 38. On maps with unique keys, the only ones a Go map
can be, every sorting routine produces the same key order; the model uses
insertion sort. -/
def encodeV (v : Values) : GoStr :=
  encodeFlat ((List.insertionSort leR (keysOf v)).flatMap
    (fun k => (lookupV v k).map (fun x => (k, x))))

/-- Go ParseQuery on one segment: reject a segment containing byte 59, skip
an empty segment, split at the first byte 61 into key and value, unescape
both; a failure drops the pair (ParseQuery records the error and continues
with the remaining segments). -/
def parseSeg (seg : GoStr) : Option (GoStr × GoStr) :=
  if 59 ∈ seg then none
  else if seg = [] then none
  else
    match queryUnescape (cutByte 61 seg).1, queryUnescape (cutByte 61 seg).2 with
    | some k, some x => some (k, x)
    | _, _ => none

/-- Go url.ParseQuery: split the query on byte 38 and parse each segment,
keeping the pairs in order; m[key] = append(m[key], value) makes the
resulting map the per-key aggregation of this flat list. -/
def parseQueryPairs (q : GoStr) : List (GoStr × GoStr) :=
  (splitOnByte 38 q).filterMap parseSeg

/-- The slice ParseQuery builds under one key: the values of the pairs with
that key, in order of appearance. -/
def parsedValues (q : GoStr) (k : GoStr) : List GoStr :=
  (parseQueryPairs q).filterMap (fun p => if p.1 = k then some p.2 else none)

example : parseQueryPairs (encodeFlat [(ofString "a b", ofString "x&y"), (ofString "k", [])]) =
    [(ofString "a b", ofString "x&y"), (ofString "k", [])] := by decide

/-! ### strconv.Itoa -/

/-- Digit loop with an explicit structural bound: the bound only has to
exceed the digit count, and each step divides the argument by ten. -/
def natToDigitsAux : Nat → Nat → GoStr
  | 0, _ => []
  | fuel + 1, n => if n < 10 then [48 + n] else natToDigitsAux fuel (n / 10) ++ [48 + n % 10]

/-- Decimal digits of a natural number, most significant first; the bound
n + 1 always exceeds the digit count of n. -/
def natToDigits (n : Nat) : GoStr := natToDigitsAux (n + 1) n

/-- Go strconv.Itoa: decimal rendering, byte 45 sign for negatives. -/
def goItoa (i : Int) : GoStr :=
  if i < 0 then 45 :: natToDigits (-i).toNat else natToDigits i.toNat

example : goItoa 10 = ofString "10" := by decide
example : goItoa (-207) = ofString "-207" := by decide
example : goItoa 0 = ofString "0" := by decide

/-! ### The fixed endpoint and the url.Parse model -/

/-- Scheme, host and path of a parsed URL of the endpoint shape. -/
structure GoURL where
  scheme : GoStr
  host : GoStr
  path : GoStr
deriving DecidableEq

/-- ASCII control bytes, which Go url.Parse rejects anywhere in a URL. -/
def isCtl (b : Nat) : Bool := b < 32 || b == 127

/-- ASCII letters. -/
def isAlpha (b : Nat) : Bool := (65 ≤ b && b ≤ 90) || (97 ≤ b && b ≤ 122)

/-- Model of Go url.Parse, scoped to the shape of the constant endpoint of
buildURL: an absolute URL scheme://host/path whose host bytes are
unreserved and whose path bytes are unreserved or 47, with no query,
fragment, userinfo, port or percent-escape (for such URLs URL.String
renders scheme://host/path back verbatim). Inputs outside this shape are
rejected by the model; the function is only ever applied to the constant
endpoint, which is inside the shape. Checks Go performs that the model
keeps: no ASCII control byte anywhere, and a nonempty scheme starting with
a letter and continuing with letters, digits, 43, 45 or 46, followed by a
colon and the authority marker. -/
def goURLParse (s : GoStr) : Option GoURL :=
  if s.any isCtl then none
  else
    let sch := (cutByte 58 s).1
    let rest := (cutByte 58 s).2
    if sch = [] then none
    else if ¬ (isAlpha (sch.headD 0) &&
        sch.all (fun b => isAlpha b || (48 ≤ b && b ≤ 57) || b == 43 || b == 45 || b == 46)) then
      none
    else
      match rest with
      | 47 :: 47 :: hp =>
        let host := hp.takeWhile (fun b => !(b == 47))
        let path := hp.dropWhile (fun b => !(b == 47))
        if host.all isUnreserved && path.all (fun b => isUnreserved b || b == 47) then
          some ⟨sch, host, path⟩
        else none
      | _ => none

/-- URL.String for the parsed endpoint shape: scheme, 58 47 47, host, path
and, when the raw query is nonempty, 63 followed by the query. -/
def renderGoURL (u : GoURL) (q : GoStr) : GoStr :=
  u.scheme ++ (58 :: 47 :: 47 :: (u.host ++ u.path)) ++ (if q = [] then [] else 63 :: q)

/-- The constant base endpoint of buildURL. -/
def endpointStr : GoStr :=
  ofString "http://svcs.ebay.com/services/search/FindingService/v1"

/-- The endpoint as url.Parse decomposes it. -/
def endpointURL : GoURL :=
  ⟨ofString "http", ofString "svcs.ebay.com", ofString "/services/search/FindingService/v1"⟩

/-- The constant endpoint parses, into its scheme, host and path. -/
lemma goURLParse_endpoint : goURLParse endpointStr = some endpointURL := by decide

/-- Everything after the first byte 63 of a URL string: the raw query. -/
def rawQueryOf (u : GoStr) : GoStr := (cutByte 63 u).2

/-! ### buildURL and the two filter strategies -/

/-- The eight fixed Add calls of buildURL, in source order. -/
def fixedParams (appID gid kw op : GoStr) (epp : Int) : Values :=
  (((((((Values.empty.add (ofString "OPERATION-NAME") op).add
    (ofString "SERVICE-VERSION") (ofString "1.0.0")).add
    (ofString "SECURITY-APPNAME") appID).add
    (ofString "GLOBAL-ID") gid).add
    (ofString "RESPONSE-DATA-FORMAT") (ofString "XML")).add
    (ofString "REST-PAYLOAD") []).add
    (ofString "keywords") kw).add
    (ofString "paginationInput.entriesPerPage") (goItoa epp)

/-- The parameter map of buildURL: the eight fixed Add calls, then the
filter map copied in by the double loop. -/
def buildParams (appID gid kw op : GoStr) (epp : Int) (filters : Values) : Values :=
  addAll (fixedParams appID gid kw op epp) filters

/-- func buildURL (lines 105-127): parse the constant endpoint, propagating
a parse failure as the error return; otherwise assemble the parameters, set
the encoded query and render the URL string. -/
def buildURL (appID gid kw op : GoStr) (epp : Int) (filters : Values) :
    Except GoStr GoStr :=
  match goURLParse endpointStr with
  | none => .error (ofString "malformed endpoint")
  | some u => .ok (renderGoURL u (encodeV (buildParams appID gid kw op epp filters)))

/-- The completed-items filter map of buildSoldURL (lines 84-89). -/
def soldFilters : Values :=
  ((((Values.empty.add (ofString "itemFilter(0).name") (ofString "Condition")).add
    (ofString "itemFilter(0).value(0)") (ofString "Used")).add
    (ofString "itemFilter(0).value(1)") (ofString "Unspecified")).add
    (ofString "itemFilter(1).name") (ofString "SoldItemsOnly")).add
    (ofString "itemFilter(1).value(0)") (ofString "true")

/-- The keyword-search filter map of buildSearchURL (lines 94-101): always
AuctionWithBIN, and also FixedPrice and Auction unless binOnly. -/
def searchFilters (binOnly : Bool) : Values :=
  let f := (Values.empty.add (ofString "itemFilter(0).name") (ofString "ListingType")).add
    (ofString "itemFilter(0).value(0)") (ofString "AuctionWithBIN")
  if !binOnly then
    (f.add (ofString "itemFilter(0).value(1)") (ofString "FixedPrice")).add
      (ofString "itemFilter(0).value(2)") (ofString "Auction")
  else f

/-- func buildSoldURL (lines 83-91). -/
def buildSoldURL (appID gid kw : GoStr) (epp : Int) : Except GoStr GoStr :=
  buildURL appID gid kw (ofString "findCompletedItems") epp soldFilters

/-- func buildSearchURL (lines 93-103). -/
def buildSearchURL (appID gid kw : GoStr) (epp : Int) (binOnly : Bool) :
    Except GoStr GoStr :=
  buildURL appID gid kw (ofString "findItemsByKeywords") epp (searchFilters binOnly)

/-! ### Response shapes, errors, and the search operations -/

/-- struct Item: one listing. Prices are float64 in the source and are
carried as Float; no claim inspects them. The listing end time, a
time.Time, is carried as nanoseconds since the epoch. -/
structure Item where
  itemID : GoStr
  title : GoStr
  location : GoStr
  currentPrice : Float
  shippingPrice : Float
  binPrice : Float
  shipsTo : List GoStr
  listingURL : GoStr
  imageURL : GoStr
  site : GoStr
  endTime : Int

/-- struct FindItemsResponse: the keyword-search envelope. The XMLName
field of the source only names the root element for the stdlib decoder and
carries no data. -/
structure FindItemsResponse where
  items : List Item
  timestamp : GoStr

/-- The Go zero value of FindItemsResponse: nil item slice, empty
timestamp. -/
def FindItemsResponse.zero : FindItemsResponse := ⟨[], []⟩

/-- struct FindCompletedItemsResponse: the completed-items envelope. -/
structure FindCompletedItemsResponse where
  items : List Item
  timestamp : GoStr

/-- The Go zero value of FindCompletedItemsResponse. -/
def FindCompletedItemsResponse.zero : FindCompletedItemsResponse := ⟨[], []⟩

/-- struct Error: the structured fault payload of the upstream service. -/
structure Error where
  errorID : GoStr
  domain : GoStr
  severity : GoStr
  category : GoStr
  message : GoStr
  subDomain : GoStr

/-- struct ErrorMessage: the fault envelope wrapping one Error. -/
structure ErrorMessage where
  error : Error

/-- Error outcomes of a call, tagged by the source expression that creates
them: the endpoint parse failure propagated out of buildURL, a transport
error returned by Get and propagated verbatim, errors.New of a decoded
fault message, and an xml.Unmarshal failure. In Go all four are plain
error values; the tag records which branch of the source produced the
value, matching the error taxonomy of the specification. -/
inductive CallError
  | endpoint (msg : GoStr)
  | transport (msg : GoStr)
  | upstream (msg : GoStr)
  | decode (msg : GoStr)
deriving DecidableEq

/-- The injected HTTP transport: e.HTTPRequest.Get maps a URL (with the
fixed user-agent header every call site passes) to a body, a status code
and an error. -/
abbrev Transport := GoStr → GoStr × Int × Option GoStr

/-- Modelled from the spec: the Response Decoder for one envelope shape.
The source realizes it with encoding/xml (outside this repository) and the
specification gives its contract: parse an XML byte sequence into the
expected envelope shape, where malformed XML or a structural mismatch
fails with DecodeError carrying the underlying parse diagnostic, and no
partial results are returned on decode failure. A decoder is therefore a
function from the body to either the envelope or a diagnostic; the
variable the caller declared keeps its zero value when decoding fails. -/
abbrev Decoder (α : Type) := GoStr → Except GoStr α

/-- func findItems (lines 129-151): issue the GET, propagate a transport
error, decode the fault envelope on a non-200 status (an upstream error on
success, the decode failure otherwise), and decode the success envelope on
status 200. The decoder parameters stand for the two xml.Unmarshal
instantiations. The globalID, keywords and entriesPerPage parameters are
bound but never used, exactly as in the source. -/
def findItems (decR : Decoder FindItemsResponse) (decE : Decoder ErrorMessage)
    (get : Transport) (globalID keywords : GoStr) (entriesPerPage : Int)
    (url : GoStr) : FindItemsResponse × Option CallError :=
  match get url with
  | (body, statusCode, err) =>
    match err with
    | some e => (FindItemsResponse.zero, some (.transport e))
    | none =>
      if statusCode ≠ 200 then
        match decE body with
        | .error e => (FindItemsResponse.zero, some (.decode e))
        | .ok em => (FindItemsResponse.zero, some (.upstream em.error.message))
      else
        match decR body with
        | .error e => (FindItemsResponse.zero, some (.decode e))
        | .ok response => (response, none)

/-- func FindItemsByKeywords (lines 154-180): build the search URL,
propagate its error, then run the request-and-decode body, which the
source spells out inline rather than calling findItems. -/
def FindItemsByKeywords (decR : Decoder FindItemsResponse)
    (decE : Decoder ErrorMessage) (get : Transport) (appID gid kw : GoStr)
    (epp : Int) (binOnly : Bool) : FindItemsResponse × Option CallError :=
  match buildSearchURL appID gid kw epp binOnly with
  | .error e => (FindItemsResponse.zero, some (.endpoint e))
  | .ok url =>
    match get url with
    | (body, statusCode, err) =>
      match err with
      | some e => (FindItemsResponse.zero, some (.transport e))
      | none =>
        if statusCode ≠ 200 then
          match decE body with
          | .error e => (FindItemsResponse.zero, some (.decode e))
          | .ok em => (FindItemsResponse.zero, some (.upstream em.error.message))
        else
          match decR body with
          | .error e => (FindItemsResponse.zero, some (.decode e))
          | .ok response => (response, none)

/-- func FindSoldItems (lines 183-209): the completed-items variant of the
same inline body, against buildSoldURL and the completed-items envelope. -/
def FindSoldItems (decC : Decoder FindCompletedItemsResponse)
    (decE : Decoder ErrorMessage) (get : Transport) (appID gid kw : GoStr)
    (epp : Int) : FindCompletedItemsResponse × Option CallError :=
  match buildSoldURL appID gid kw epp with
  | .error e => (FindCompletedItemsResponse.zero, some (.endpoint e))
  | .ok url =>
    match get url with
    | (body, statusCode, err) =>
      match err with
      | some e => (FindCompletedItemsResponse.zero, some (.transport e))
      | none =>
        if statusCode ≠ 200 then
          match decE body with
          | .error e => (FindCompletedItemsResponse.zero, some (.decode e))
          | .ok em => (FindCompletedItemsResponse.zero, some (.upstream em.error.message))
        else
          match decC body with
          | .error e => (FindCompletedItemsResponse.zero, some (.decode e))
          | .ok response => (response, none)


/-! ### Validity and the filter key shape -/

/-- All keys and values of a Values map are byte-valid. -/
def ValidV (v : Values) : Prop := ∀ p ∈ v, ValidStr p.1 ∧ ∀ x ∈ p.2, ValidStr x

/-- The leading tag of every filter key the specification admits: filter
parameters are the repeated indexed keys itemFilter(N).name and
itemFilter(N).value(M). -/
def itemFilterTag : GoStr := ofString "itemFilter("

/-- The first argument is an initial segment of the second. -/
def startsW : GoStr → GoStr → Bool
  | [], _ => true
  | _ :: _, [] => false
  | a :: as, b :: bs => a == b && startsW as bs

/-- A filter map of the shape the specification admits: unique filter keys,
each starting with the itemFilter( tag, each carrying at least one value,
all byte-valid. -/
def SpecFilters (f : Values) : Prop :=
  (keysOf f).Nodup ∧ (∀ p ∈ f, startsW itemFilterTag p.1 = true) ∧
    (∀ p ∈ f, p.2 ≠ []) ∧ ValidV f

instance (v : Values) : Decidable (ValidV v) := by
  unfold ValidV
  infer_instance

instance (f : Values) : Decidable (SpecFilters f) := by
  unfold SpecFilters
  infer_instance

/-! ### Lemmas: query escaping round-trips -/

/-- Unfolding isUnreserved into arithmetic. -/
lemma isUnreserved_iff {b : Nat} : isUnreserved b = true ↔
    (97 ≤ b ∧ b ≤ 122) ∨ (65 ≤ b ∧ b ≤ 90) ∨ (48 ≤ b ∧ b ≤ 57) ∨
      b = 45 ∨ b = 95 ∨ b = 46 ∨ b = 126 := by
  simp only [isUnreserved, Bool.or_eq_true, Bool.and_eq_true, decide_eq_true_eq,
    beq_iff_eq]
  tauto

/-- A hex digit emitted by the escaper decodes back to its value. -/
lemma hexVal_upperHexDigit {n : Nat} (h : n < 16) :
    hexVal (upperHexDigit n) = some n := by
  unfold upperHexDigit
  rcases Nat.lt_or_ge n 10 with h10 | h10
  · rw [if_pos h10]
    unfold hexVal
    rw [if_pos (by omega)]
    congr 1
    omega
  · rw [if_neg (by omega)]
    unfold hexVal
    rw [if_neg (by omega), if_neg (by omega), if_pos (by omega)]
    congr 1
    omega

/-- Hex digits are never the separators 38, 59, 61. -/
lemma upperHexDigit_ne (n : Nat) :
    upperHexDigit n ≠ 38 ∧ upperHexDigit n ≠ 59 ∧ upperHexDigit n ≠ 61 := by
  unfold upperHexDigit
  split <;> omega

/-- No byte of an escaped string is 38, 59 or 61: the pair and segment
separators of a query string survive only outside escaped components. -/
lemma mem_queryEscapeByte {c b : Nat} (h : c ∈ queryEscapeByte b) :
    c ≠ 38 ∧ c ≠ 59 ∧ c ≠ 61 := by
  unfold queryEscapeByte at h
  by_cases hb : isUnreserved b = true
  · rw [if_pos hb] at h
    simp only [List.mem_singleton] at h
    subst h
    rcases isUnreserved_iff.mp hb with h1 | h1 | h1 | h1 | h1 | h1 | h1 <;> omega
  · rw [if_neg hb] at h
    by_cases h32 : (b == 32) = true
    · rw [if_pos h32] at h
      simp only [List.mem_singleton] at h
      omega
    · rw [if_neg h32] at h
      simp only [List.mem_cons, List.not_mem_nil, or_false] at h
      rcases h with rfl | rfl | rfl
      · exact ⟨by omega, by omega, by omega⟩
      · exact upperHexDigit_ne _
      · exact upperHexDigit_ne _

/-- Separator-freedom for a whole escaped string. -/
lemma mem_queryEscape {c : Nat} {s : GoStr} (h : c ∈ queryEscape s) :
    c ≠ 38 ∧ c ≠ 59 ∧ c ≠ 61 := by
  unfold queryEscape at h
  rcases List.mem_flatMap.mp h with ⟨b, _, hb⟩
  exact mem_queryEscapeByte hb

/-- Unescape step for an ordinary byte. -/
lemma queryUnescape_cons_other {b : Nat} {rest : GoStr} (h37 : b ≠ 37) (h43 : b ≠ 43) :
    queryUnescape (b :: rest) = (queryUnescape rest).map (fun t => b :: t) := by
  rw [queryUnescape.eq_def]
  simp [h37, h43]

/-- Unescape step for byte 43. -/
lemma queryUnescape_cons_plus {rest : GoStr} :
    queryUnescape (43 :: rest) = (queryUnescape rest).map (fun t => 32 :: t) := by
  rw [queryUnescape.eq_def]
  simp

/-- Unescape step for a valid percent-escape. -/
lemma queryUnescape_pct {c1 c2 x y : Nat} (rest : GoStr)
    (h1 : hexVal c1 = some x) (h2 : hexVal c2 = some y) :
    queryUnescape (37 :: c1 :: c2 :: rest) =
      (queryUnescape rest).map (fun t => (16 * x + y) :: t) := by
  rw [queryUnescape.eq_def]
  simp [h1, h2]

/-- Unescaping undoes escaping on byte-valid strings. -/
lemma queryUnescape_queryEscape {s : GoStr} (h : ValidStr s) :
    queryUnescape (queryEscape s) = some s := by
  induction s with
  | nil => rfl
  | cons b t ih =>
    have hb : b < 256 := h b (List.mem_cons_self b t)
    have htail := ih (fun c hc => h c (List.mem_cons_of_mem b hc))
    have hesc : queryEscape (b :: t) = queryEscapeByte b ++ queryEscape t := by
      simp [queryEscape]
    rw [hesc]
    unfold queryEscapeByte
    by_cases hu : isUnreserved b = true
    · rw [if_pos hu]
      have hcase := isUnreserved_iff.mp hu
      have h37 : b ≠ 37 := by rcases hcase with h1 | h1 | h1 | h1 | h1 | h1 | h1 <;> omega
      have h43 : b ≠ 43 := by rcases hcase with h1 | h1 | h1 | h1 | h1 | h1 | h1 <;> omega
      rw [List.cons_append, List.nil_append, queryUnescape_cons_other h37 h43, htail]
      rfl
    · rw [if_neg hu]
      by_cases h32 : (b == 32) = true
      · rw [if_pos h32]
        have hb32 : b = 32 := by simpa using h32
        rw [List.cons_append, List.nil_append, queryUnescape_cons_plus, htail, hb32]
        rfl
      · rw [if_neg h32]
        have key := queryUnescape_pct (queryEscape t)
          (hexVal_upperHexDigit (show b / 16 < 16 by omega))
          (hexVal_upperHexDigit (show b % 16 < 16 by omega))
        rw [List.cons_append, List.cons_append, List.cons_append, List.nil_append,
          key, htail]
        have hb16 : 16 * (b / 16) + b % 16 = b := by omega
        rw [hb16]
        rfl

/-! ### Lemmas: cutting, splitting and joining -/

/-- Cutting at an absent byte returns the whole string and an empty rest. -/
lemma cutByte_not_mem {b : Nat} {xs : GoStr} (h : b ∉ xs) :
    cutByte b xs = (xs, []) := by
  induction xs with
  | nil => rfl
  | cons c cs ih =>
    simp only [cutByte]
    rw [if_neg (by rintro rfl; exact h (List.mem_cons_self c cs)),
      ih (fun hc => h (List.mem_cons_of_mem c hc))]

/-- Cutting at the first occurrence of the byte. -/
lemma cutByte_append {b : Nat} {xs ys : GoStr} (h : b ∉ xs) :
    cutByte b (xs ++ b :: ys) = (xs, ys) := by
  induction xs with
  | nil => simp [cutByte]
  | cons c cs ih =>
    rw [List.cons_append]
    simp only [cutByte]
    rw [if_neg (by rintro rfl; exact h (List.mem_cons_self c cs)),
      ih (fun hc => h (List.mem_cons_of_mem c hc))]

/-- Splitting a string free of the separator yields one segment. -/
lemma splitOnByte_not_mem {b : Nat} {xs : GoStr} (h : b ∉ xs) :
    splitOnByte b xs = [xs] := by
  induction xs with
  | nil => rfl
  | cons c cs ih =>
    simp only [splitOnByte]
    rw [if_neg (by rintro rfl; exact h (List.mem_cons_self c cs)),
      ih (fun hc => h (List.mem_cons_of_mem c hc))]

/-- Splitting peels off a separator-free first segment. -/
lemma splitOnByte_append {b : Nat} {xs ys : GoStr} (h : b ∉ xs) :
    splitOnByte b (xs ++ b :: ys) = xs :: splitOnByte b ys := by
  induction xs with
  | nil =>
    rw [List.nil_append]
    simp [splitOnByte]
  | cons c cs ih =>
    rw [List.cons_append]
    simp only [splitOnByte]
    rw [if_neg (by rintro rfl; exact h (List.mem_cons_self c cs)),
      ih (fun hc => h (List.mem_cons_of_mem c hc))]

/-- Splitting undoes joining when no part contains the separator. -/
lemma splitOnByte_joinSep {b : Nat} {parts : List GoStr} (hne : parts ≠ [])
    (h : ∀ p ∈ parts, b ∉ p) :
    splitOnByte b (joinSep [b] parts) = parts := by
  induction parts with
  | nil => exact absurd rfl hne
  | cons x rest ih =>
    cases rest with
    | nil =>
      exact splitOnByte_not_mem (h x (List.mem_cons_self x []))
    | cons y rest2 =>
      have hx : b ∉ x := h x (List.mem_cons_self _ _)
      have hrest : ∀ p ∈ y :: rest2, b ∉ p :=
        fun p hp => h p (List.mem_cons_of_mem _ hp)
      have hjoin : joinSep [b] (x :: y :: rest2) = x ++ b :: joinSep [b] (y :: rest2) := by
        simp [joinSep]
      rw [hjoin, splitOnByte_append hx, ih (by simp) hrest]

/-! ### Lemmas: parsing an encoded query -/

/-- No byte of an encoded pair is a segment separator 38 or a rejected 59. -/
lemma mem_encodePair {c : Nat} {k x : GoStr} (hc : c ∈ encodePair k x) :
    c ≠ 38 ∧ c ≠ 59 := by
  unfold encodePair at hc
  rcases List.mem_append.mp hc with hm | hm
  · exact ⟨(mem_queryEscape hm).1, (mem_queryEscape hm).2.1⟩
  · rcases List.mem_cons.mp hm with rfl | hm
    · exact ⟨by omega, by omega⟩
    · exact ⟨(mem_queryEscape hm).1, (mem_queryEscape hm).2.1⟩

/-- An encoded pair is nonempty: it contains its byte 61. -/
lemma encodePair_ne_nil {k x : GoStr} : encodePair k x ≠ [] := by
  unfold encodePair
  intro heq
  have h61 : (61 : Nat) ∈ queryEscape k ++ 61 :: queryEscape x :=
    List.mem_append.mpr (Or.inr (List.mem_cons_self _ _))
  rw [heq] at h61
  cases h61

/-- An encoded pair of byte-valid strings parses back to the pair. -/
lemma parseSeg_encodePair {k x : GoStr} (hk : ValidStr k) (hx : ValidStr x) :
    parseSeg (encodePair k x) = some (k, x) := by
  have h61 : (61 : Nat) ∉ queryEscape k := fun hm => (mem_queryEscape hm).2.2 rfl
  have hcut : cutByte 61 (encodePair k x) = (queryEscape k, queryEscape x) :=
    cutByte_append h61
  have h59 : (59 : Nat) ∉ encodePair k x := fun hm => (mem_encodePair hm).2 rfl
  unfold parseSeg
  rw [if_neg h59, if_neg encodePair_ne_nil, hcut]
  simp [queryUnescape_queryEscape hk, queryUnescape_queryEscape hx]

/-- Parsing the encoded segments of byte-valid pairs keeps every pair. -/
lemma filterMap_parseSeg_encode {ps : List (GoStr × GoStr)}
    (h : ∀ p ∈ ps, ValidStr p.1 ∧ ValidStr p.2) :
    (ps.map fun p => encodePair p.1 p.2).filterMap parseSeg = ps := by
  induction ps with
  | nil => rfl
  | cons p rest ih =>
    obtain ⟨k, x⟩ := p
    rw [List.map_cons, List.filterMap_cons,
      parseSeg_encodePair (h (k, x) (List.mem_cons_self _ _)).1
        (h (k, x) (List.mem_cons_self _ _)).2,
      ih (fun q hq => h q (List.mem_cons_of_mem _ hq))]

/-- Parsing inverts encoding on a flat list of byte-valid pairs. -/
lemma parseQueryPairs_encodeFlat {ps : List (GoStr × GoStr)}
    (h : ∀ p ∈ ps, ValidStr p.1 ∧ ValidStr p.2) :
    parseQueryPairs (encodeFlat ps) = ps := by
  cases ps with
  | nil => rfl
  | cons p0 rest =>
    have hsep : ∀ q ∈ (p0 :: rest).map fun p => encodePair p.1 p.2, (38 : Nat) ∉ q := by
      intro q hq hmem
      rcases List.mem_map.mp hq with ⟨p, hp, rfl⟩
      exact (mem_encodePair hmem).1 rfl
    unfold parseQueryPairs encodeFlat
    rw [splitOnByte_joinSep (by simp) hsep]
    exact filterMap_parseSeg_encode h

/-! ### Lemmas: the Values association list -/

/-- Reading after Add: the added value lands at the end of its slice. -/
lemma lookupV_add (v : Values) (k x k2 : GoStr) :
    lookupV (Values.add v k x) k2 =
      if k = k2 then lookupV v k2 ++ [x] else lookupV v k2 := by
  induction v with
  | nil => by_cases hk : k = k2 <;> simp [Values.add, lookupV, hk]
  | cons p rest ih =>
    obtain ⟨k0, vs⟩ := p
    by_cases h0 : k0 = k
    · subst h0
      by_cases h2 : k0 = k2
      · subst h2
        simp [Values.add, lookupV]
      · simp [Values.add, lookupV, h2]
    · by_cases h2 : k0 = k2
      · subst h2
        have hk : ¬ k = k0 := fun he => h0 he.symm
        simp [Values.add, lookupV, h0, hk]
      · simp [Values.add, lookupV, h0, h2, ih]

/-- Keys after Add: unchanged for an old key, appended for a fresh one. -/
lemma keysOf_add (v : Values) (k x : GoStr) :
    keysOf (Values.add v k x) =
      if k ∈ keysOf v then keysOf v else keysOf v ++ [k] := by
  induction v with
  | nil => simp [Values.add, keysOf]
  | cons p rest ih =>
    obtain ⟨k0, vs⟩ := p
    by_cases h0 : k0 = k
    · subst h0
      simp [Values.add, keysOf]
    · have hks : ¬ k = k0 := fun he => h0 he.symm
      have hcons : keysOf ((k0, vs) :: Values.add rest k x) =
          k0 :: keysOf (Values.add rest k x) := rfl
      have hcons2 : keysOf ((k0, vs) :: rest) = k0 :: keysOf rest := rfl
      simp only [Values.add]
      rw [if_neg h0, hcons, ih, hcons2]
      by_cases hm : k ∈ keysOf rest
      · rw [if_pos hm, if_pos (List.mem_cons_of_mem _ hm)]
      · rw [if_neg hm, if_neg (by simp [List.mem_cons, hks, hm]), List.cons_append]

/-- The added key is a key of the result. -/
lemma mem_keysOf_add (v : Values) (k x : GoStr) : k ∈ keysOf (Values.add v k x) := by
  rw [keysOf_add]
  by_cases hm : k ∈ keysOf v <;> simp [hm]

/-- Add keeps keys unique. -/
lemma nodup_keysOf_add {v : Values} (h : (keysOf v).Nodup) (k x : GoStr) :
    (keysOf (Values.add v k x)).Nodup := by
  rw [keysOf_add]
  by_cases hm : k ∈ keysOf v
  · rw [if_pos hm]
    exact h
  · rw [if_neg hm]
    simp [List.nodup_append, h, hm]

/-- Reading after a slice of Adds under one key. -/
lemma lookupV_addVals (v : Values) (k : GoStr) (vs : List GoStr) (k2 : GoStr) :
    lookupV (addVals v k vs) k2 =
      if k = k2 then lookupV v k2 ++ vs else lookupV v k2 := by
  induction vs generalizing v with
  | nil => by_cases hk : k = k2 <;> simp [addVals, hk]
  | cons x xs ih =>
    simp only [addVals]
    rw [ih]
    by_cases hk : k = k2 <;> simp [lookupV_add, hk]

/-- Keys are unchanged when the key is already present. -/
lemma keysOf_addVals_mem {v : Values} {k : GoStr} (h : k ∈ keysOf v)
    (vs : List GoStr) : keysOf (addVals v k vs) = keysOf v := by
  induction vs generalizing v with
  | nil => rfl
  | cons x xs ih =>
    simp only [addVals]
    rw [ih (mem_keysOf_add v k x), keysOf_add, if_pos h]

/-- A fresh key with a nonempty slice is appended once. -/
lemma keysOf_addVals_not_mem {v : Values} {k : GoStr} (h : k ∉ keysOf v)
    {vs : List GoStr} (hvs : vs ≠ []) :
    keysOf (addVals v k vs) = keysOf v ++ [k] := by
  cases vs with
  | nil => exact absurd rfl hvs
  | cons x xs =>
    simp only [addVals]
    rw [keysOf_addVals_mem (mem_keysOf_add v k x), keysOf_add, if_neg h]

/-- addVals keeps keys unique. -/
lemma nodup_keysOf_addVals {v : Values} (h : (keysOf v).Nodup) (k : GoStr)
    (vs : List GoStr) : (keysOf (addVals v k vs)).Nodup := by
  induction vs generalizing v with
  | nil => exact h
  | cons x xs ih => exact ih (nodup_keysOf_add h k x)

/-- A key outside the map reads as the empty slice. -/
lemma lookupV_eq_nil {f : Values} {k : GoStr} (h : k ∉ keysOf f) :
    lookupV f k = [] := by
  induction f with
  | nil => rfl
  | cons p rest ih =>
    obtain ⟨k0, vs⟩ := p
    have hcons : keysOf ((k0, vs) :: rest) = k0 :: keysOf rest := rfl
    rw [hcons] at h
    simp only [List.mem_cons, not_or] at h
    simp only [lookupV]
    rw [if_neg (fun he => h.1 he.symm), ih h.2]

/-- With unique keys, reading returns the slice of the unique entry. -/
lemma lookupV_eq_of_mem {f : Values} (hnd : (keysOf f).Nodup) {k : GoStr}
    {vs : List GoStr} (h : (k, vs) ∈ f) : lookupV f k = vs := by
  induction f with
  | nil => cases h
  | cons p rest ih =>
    obtain ⟨k0, vs0⟩ := p
    have hnd0 := List.nodup_cons.mp hnd
    rcases List.mem_cons.mp h with heq | hmem
    · obtain ⟨rfl, rfl⟩ := Prod.mk.injEq k vs k0 vs0 ▸ heq
      simp [lookupV]
    · have hk : k ∈ keysOf rest := List.mem_map.mpr ⟨(k, vs), hmem, rfl⟩
      have h0 : ¬ k0 = k := fun he => hnd0.1 (he ▸ hk)
      simp only [lookupV]
      rw [if_neg h0, ih hnd0.2 hmem]

/-- A value read from a map comes from one of its entries. -/
lemma mem_lookupV {f : Values} {k x : GoStr} (h : x ∈ lookupV f k) :
    ∃ p ∈ f, p.1 = k ∧ x ∈ p.2 := by
  induction f with
  | nil => cases h
  | cons p rest ih =>
    obtain ⟨k0, vs0⟩ := p
    simp only [lookupV] at h
    by_cases h0 : k0 = k
    · rw [if_pos h0] at h
      exact ⟨(k0, vs0), List.mem_cons_self _ _, h0, h⟩
    · rw [if_neg h0] at h
      obtain ⟨q, hq, hqk, hqx⟩ := ih h
      exact ⟨q, List.mem_cons_of_mem _ hq, hqk, hqx⟩

/-- Reading after the filter-copy loop: base slices first, then the filter
slices, provided the filter keys are unique. -/
lemma lookupV_addAll {f : Values} (hnd : (keysOf f).Nodup) (v : Values) (k : GoStr) :
    lookupV (addAll v f) k = lookupV v k ++ lookupV f k := by
  induction f generalizing v with
  | nil => simp [addAll, lookupV]
  | cons p rest ih =>
    obtain ⟨k0, vs0⟩ := p
    have hnd0 := List.nodup_cons.mp hnd
    simp only [addAll]
    rw [ih hnd0.2, lookupV_addVals]
    by_cases h0 : k0 = k
    · subst h0
      rw [if_pos rfl, lookupV_eq_nil hnd0.1]
      simp [lookupV]
    · rw [if_neg h0]
      simp [lookupV, h0]

/-- addAll keeps keys unique. -/
lemma nodup_keysOf_addAll {v : Values} (h : (keysOf v).Nodup) (f : Values) :
    (keysOf (addAll v f)).Nodup := by
  induction f generalizing v with
  | nil => exact h
  | cons p rest ih =>
    obtain ⟨k0, vs0⟩ := p
    exact ih (nodup_keysOf_addVals h k0 vs0)

/-- Keys after the filter-copy loop, when the filter keys are fresh, unique
and carry nonempty slices: base keys then filter keys. -/
lemma keysOf_addAll {v f : Values} (hnd : (keysOf f).Nodup)
    (hdis : ∀ k ∈ keysOf f, k ∉ keysOf v) (hne : ∀ p ∈ f, p.2 ≠ []) :
    keysOf (addAll v f) = keysOf v ++ keysOf f := by
  induction f generalizing v with
  | nil => simp [addAll, keysOf]
  | cons p rest ih =>
    obtain ⟨k0, vs0⟩ := p
    have hnd0 := List.nodup_cons.mp hnd
    have hk0 : k0 ∉ keysOf v := hdis k0 (List.mem_cons_self _ _)
    have hvs0 : vs0 ≠ [] := hne (k0, vs0) (List.mem_cons_self _ _)
    have hdis2 : ∀ k ∈ keysOf rest, k ∉ keysOf (addVals v k0 vs0) := by
      intro k hk
      rw [keysOf_addVals_not_mem hk0 hvs0]
      simp only [List.mem_append, List.mem_singleton, not_or]
      exact ⟨hdis k (List.mem_cons_of_mem _ hk),
        fun he => hnd0.1 (by rw [← he]; exact hk)⟩
    simp only [addAll]
    rw [ih hnd0.2 hdis2 (fun q hq => hne q (List.mem_cons_of_mem _ hq)),
      keysOf_addVals_not_mem hk0 hvs0]
    simp [keysOf]

/-- With unique keys, reading is invariant under permutation of the map. -/
lemma lookupV_perm {f f2 : Values} (hp : f.Perm f2) (hnd : (keysOf f).Nodup)
    (k : GoStr) : lookupV f k = lookupV f2 k := by
  have hkp : (keysOf f).Perm (keysOf f2) := by
    unfold keysOf
    exact hp.map _
  have hnd2 : (keysOf f2).Nodup := hkp.nodup_iff.mp hnd
  by_cases hm : k ∈ keysOf f
  · obtain ⟨p, hpmem, hpk⟩ := List.mem_map.mp hm
    obtain ⟨k1, vs⟩ := p
    cases hpk
    rw [lookupV_eq_of_mem hnd hpmem, lookupV_eq_of_mem hnd2 (hp.mem_iff.mp hpmem)]
  · rw [lookupV_eq_nil hm, lookupV_eq_nil (fun hm2 => hm (hkp.mem_iff.mpr hm2))]

/-- Add preserves byte-validity. -/
lemma validV_add {v : Values} (h : ValidV v) {k x : GoStr} (hk : ValidStr k)
    (hx : ValidStr x) : ValidV (Values.add v k x) := by
  induction v with
  | nil =>
    intro p hp
    simp only [Values.add, List.mem_singleton] at hp
    subst hp
    refine ⟨hk, ?_⟩
    intro y hy
    simp only [List.mem_singleton] at hy
    subst hy
    exact hx
  | cons q rest ih =>
    obtain ⟨k0, vs0⟩ := q
    intro p hp
    by_cases h0 : k0 = k
    · subst h0
      simp only [Values.add, if_pos rfl] at hp
      rcases List.mem_cons.mp hp with rfl | hmem
      · have hq := h (k0, vs0) (List.mem_cons_self _ _)
        refine ⟨hq.1, ?_⟩
        intro y hy
        rcases List.mem_append.mp hy with hy | hy
        · exact hq.2 y hy
        · simp only [List.mem_singleton] at hy
          subst hy
          exact hx
      · exact h p (List.mem_cons_of_mem _ hmem)
    · simp only [Values.add, if_neg h0] at hp
      rcases List.mem_cons.mp hp with rfl | hmem
      · exact h (k0, vs0) (List.mem_cons_self _ _)
      · exact ih (fun q hq => h q (List.mem_cons_of_mem _ hq)) p hmem

/-- addVals preserves byte-validity. -/
lemma validV_addVals {v : Values} (h : ValidV v) {k : GoStr} (hk : ValidStr k)
    {vs : List GoStr} (hvs : ∀ x ∈ vs, ValidStr x) : ValidV (addVals v k vs) := by
  induction vs generalizing v with
  | nil => exact h
  | cons x xs ih =>
    exact ih (validV_add h hk (hvs x (List.mem_cons_self _ _)))
      (fun y hy => hvs y (List.mem_cons_of_mem _ hy))

/-- addAll preserves byte-validity. -/
lemma validV_addAll {v : Values} (h : ValidV v) {f : Values} (hf : ValidV f) :
    ValidV (addAll v f) := by
  induction f generalizing v with
  | nil => exact h
  | cons p rest ih =>
    obtain ⟨k0, vs0⟩ := p
    have hp := hf (k0, vs0) (List.mem_cons_self _ _)
    exact ih (validV_addVals h hp.1 hp.2) (fun q hq => hf q (List.mem_cons_of_mem _ hq))

/-! ### Lemmas: the sorted encoding -/

/-- Totality of the byte-lexicographic order. -/
lemma leB_total : ∀ a b : GoStr, leB a b = true ∨ leB b a = true := by
  intro a
  induction a with
  | nil => intro b; left; rfl
  | cons x xs ih =>
    intro b
    cases b with
    | nil => right; rfl
    | cons y ys =>
      rcases Nat.lt_trichotomy x y with h | h | h
      · left; simp [leB, h]
      · subst h
        rcases ih ys with hl | hl
        · left; simp [leB, hl]
        · right; simp [leB, hl]
      · right; simp [leB, h]

/-- Transitivity of the byte-lexicographic order. -/
lemma leB_trans : ∀ a b c : GoStr, leB a b = true → leB b c = true → leB a c = true := by
  intro a
  induction a with
  | nil => intro b c _ _; rfl
  | cons x xs ih =>
    intro b c hab hbc
    cases b with
    | nil => simp [leB] at hab
    | cons y ys =>
      cases c with
      | nil => simp [leB] at hbc
      | cons z zs =>
        simp only [leB] at hab hbc ⊢
        split_ifs at hab hbc ⊢ <;>
          first
            | rfl
            | omega
            | simp at hab
            | simp at hbc
            | exact ih ys zs hab hbc

/-- Antisymmetry of the byte-lexicographic order. -/
lemma leB_antisymm : ∀ a b : GoStr, leB a b = true → leB b a = true → a = b := by
  intro a
  induction a with
  | nil =>
    intro b h1 h2
    cases b with
    | nil => rfl
    | cons y ys => simp [leB] at h2
  | cons x xs ih =>
    intro b h1 h2
    cases b with
    | nil => simp [leB] at h1
    | cons y ys =>
      simp only [leB] at h1 h2
      by_cases hxy : x < y
      · rw [if_neg (by omega), if_pos hxy] at h2
        exact absurd h2 (by simp)
      · by_cases hyx : y < x
        · rw [if_neg hxy, if_pos hyx] at h1
          exact absurd h1 (by simp)
        · have heq : x = y := by omega
          subst heq
          rw [if_neg hxy, if_neg hyx] at h1
          rw [if_neg hyx, if_neg hxy] at h2
          rw [ih ys h1 h2]

instance : IsTotal GoStr leR := ⟨fun a b => leB_total a b⟩

instance : IsTrans GoStr leR := ⟨fun a b c => leB_trans a b c⟩

instance : IsAntisymm GoStr leR := ⟨fun a b => leB_antisymm a b⟩

/-- Selecting one key from the flattened pair list of a unique key list
reads the slice of that key. -/
lemma filterMap_select {v : Values} {ks : List GoStr} (hnd : ks.Nodup) (k : GoStr) :
    (ks.flatMap fun k1 => (lookupV v k1).map fun x => (k1, x)).filterMap
        (fun p => if p.1 = k then some p.2 else none) =
      if k ∈ ks then lookupV v k else [] := by
  induction ks with
  | nil => simp
  | cons k1 rest ih =>
    have hnd0 := List.nodup_cons.mp hnd
    rw [List.flatMap_cons, List.filterMap_append, ih hnd0.2]
    by_cases h1 : k1 = k
    · subst h1
      have hmap : ∀ l : List GoStr, (l.map fun x => (k1, x)).filterMap
          (fun p => if p.1 = k1 then some p.2 else none) = l := by
        intro l
        induction l with
        | nil => rfl
        | cons a as iha => simp [List.filterMap_cons, iha]
      rw [hmap, if_pos (List.mem_cons_self _ _), if_neg hnd0.1, List.append_nil]
    · have hmap : ((lookupV v k1).map fun x => (k1, x)).filterMap
          (fun p => if p.1 = k then some p.2 else none) = [] := by
        induction lookupV v k1 with
        | nil => rfl
        | cons a as iha => simp [List.filterMap_cons, h1, iha]
      rw [hmap, List.nil_append]
      by_cases hm : k ∈ rest
      · rw [if_pos hm, if_pos (List.mem_cons_of_mem _ hm)]
      · rw [if_neg hm, if_neg ?hne]
        case hne =>
          intro hmem
          rcases List.mem_cons.mp hmem with he | hmem2
          · exact h1 he.symm
          · exact hm hmem2

/-- Decoding an encoded Values map reads back exactly its slices. -/
lemma parsedValues_encodeV {v : Values} (hv : ValidV v) (hnd : (keysOf v).Nodup)
    (k : GoStr) : parsedValues (encodeV v) k = lookupV v k := by
  have hperm : (List.insertionSort leR (keysOf v)).Perm (keysOf v) :=
    List.perm_insertionSort leR (keysOf v)
  have hndS : (List.insertionSort leR (keysOf v)).Nodup := hperm.nodup_iff.mpr hnd
  have hvalid : ∀ p ∈ (List.insertionSort leR (keysOf v)).flatMap
      (fun k1 => (lookupV v k1).map fun x => (k1, x)), ValidStr p.1 ∧ ValidStr p.2 := by
    intro p hp
    rcases List.mem_flatMap.mp hp with ⟨k1, hk1, hmem⟩
    rcases List.mem_map.mp hmem with ⟨x, hx, rfl⟩
    have hk1v : k1 ∈ keysOf v := hperm.mem_iff.mp hk1
    rcases List.mem_map.mp hk1v with ⟨q, hq, rfl⟩
    refine ⟨(hv q hq).1, ?_⟩
    rcases mem_lookupV hx with ⟨q2, hq2, hq2k, hq2x⟩
    exact (hv q2 hq2).2 x hq2x
  unfold parsedValues encodeV
  rw [parseQueryPairs_encodeFlat hvalid, filterMap_select hndS k]
  by_cases hm : k ∈ List.insertionSort leR (keysOf v)
  · rw [if_pos hm]
  · rw [if_neg hm, lookupV_eq_nil (fun hm2 => hm (hperm.mem_iff.mpr hm2))]

/-! ### Lemmas: the built URL -/

/-- The raw query of the rendered URL is recovered after the byte 63. -/
lemma rawQueryOf_render (q : GoStr) :
    rawQueryOf (renderGoURL endpointURL q) = q := by
  cases q with
  | nil => decide
  | cons c cs =>
    have hrender : renderGoURL endpointURL (c :: cs) = endpointStr ++ 63 :: (c :: cs) := rfl
    have h63 : (63 : Nat) ∉ endpointStr := by decide
    rw [hrender]
    show (cutByte 63 (endpointStr ++ 63 :: (c :: cs))).2 = c :: cs
    rw [cutByte_append h63]

/-- buildURL always renders the encoded parameter map behind the constant
endpoint: the parse of the endpoint succeeds. -/
lemma buildURL_eq (appID gid kw op : GoStr) (epp : Int) (filters : Values) :
    buildURL appID gid kw op epp filters =
      .ok (renderGoURL endpointURL
        (encodeV (buildParams appID gid kw op epp filters))) := by
  unfold buildURL
  rw [goURLParse_endpoint]

/-- Digits of the digit loop are decimal digit bytes. -/
lemma natToDigitsAux_valid : ∀ fuel n : Nat, ∀ b ∈ natToDigitsAux fuel n,
    48 ≤ b ∧ b ≤ 57 := by
  intro fuel
  induction fuel with
  | zero => intro n b hb; cases hb
  | succ f ih =>
    intro n b hb
    simp only [natToDigitsAux] at hb
    by_cases h10 : n < 10
    · rw [if_pos h10] at hb
      simp only [List.mem_singleton] at hb
      omega
    · rw [if_neg h10] at hb
      rcases List.mem_append.mp hb with hb | hb
      · exact ih _ b hb
      · simp only [List.mem_singleton] at hb
        have := Nat.mod_lt n (show 0 < 10 by omega)
        omega

/-- Decimal digit bytes of a natural number. -/
lemma natToDigits_valid {n b : Nat} (hb : b ∈ natToDigits n) : 48 ≤ b ∧ b ≤ 57 :=
  natToDigitsAux_valid _ _ b hb

/-- The rendering of strconv.Itoa is byte-valid. -/
lemma goItoa_valid (i : Int) : ValidStr (goItoa i) := by
  intro b hb
  unfold goItoa at hb
  by_cases hneg : i < 0
  · rw [if_pos hneg] at hb
    rcases List.mem_cons.mp hb with rfl | hb
    · omega
    · have := natToDigits_valid hb
      omega
  · rw [if_neg hneg] at hb
    have := natToDigits_valid hb
    omega

/-- A one-element slice of a byte-valid string is byte-valid. -/
lemma validSingleton {x : GoStr} (hx : ValidStr x) : ∀ y ∈ [x], ValidStr y := by
  intro y hy
  simp only [List.mem_singleton] at hy
  subst hy
  exact hx

/-- The fixed parameter map, evaluated: the eight entries in Add order. -/
lemma fixedParams_eq (appID gid kw op : GoStr) (epp : Int) :
    fixedParams appID gid kw op epp =
      [(ofString "OPERATION-NAME", [op]),
       (ofString "SERVICE-VERSION", [ofString "1.0.0"]),
       (ofString "SECURITY-APPNAME", [appID]),
       (ofString "GLOBAL-ID", [gid]),
       (ofString "RESPONSE-DATA-FORMAT", [ofString "XML"]),
       (ofString "REST-PAYLOAD", [[]]),
       (ofString "keywords", [kw]),
       (ofString "paginationInput.entriesPerPage", [goItoa epp])] := rfl

/-- The eight fixed keys, in Add order. -/
lemma keysOf_fixedParams (appID gid kw op : GoStr) (epp : Int) :
    keysOf (fixedParams appID gid kw op epp) =
      [ofString "OPERATION-NAME", ofString "SERVICE-VERSION",
       ofString "SECURITY-APPNAME", ofString "GLOBAL-ID",
       ofString "RESPONSE-DATA-FORMAT", ofString "REST-PAYLOAD",
       ofString "keywords", ofString "paginationInput.entriesPerPage"] := rfl

/-- The eight fixed keys are distinct. -/
lemma nodup_keysOf_fixedParams (appID gid kw op : GoStr) (epp : Int) :
    (keysOf (fixedParams appID gid kw op epp)).Nodup := by
  rw [keysOf_fixedParams]
  decide

/-- The fixed parameter map of byte-valid inputs is byte-valid. -/
lemma validV_fixedParams {appID gid kw op : GoStr} (hA : ValidStr appID)
    (hG : ValidStr gid) (hK : ValidStr kw) (hO : ValidStr op) (epp : Int) :
    ValidV (fixedParams appID gid kw op epp) := by
  rw [fixedParams_eq]
  intro p hp
  simp only [List.mem_cons, List.not_mem_nil, or_false] at hp
  rcases hp with rfl | rfl | rfl | rfl | rfl | rfl | rfl | rfl
  · exact ⟨show ValidStr (ofString "OPERATION-NAME") by decide, validSingleton hO⟩
  · exact ⟨show ValidStr (ofString "SERVICE-VERSION") by decide,
      validSingleton (show ValidStr (ofString "1.0.0") by decide)⟩
  · exact ⟨show ValidStr (ofString "SECURITY-APPNAME") by decide, validSingleton hA⟩
  · exact ⟨show ValidStr (ofString "GLOBAL-ID") by decide, validSingleton hG⟩
  · exact ⟨show ValidStr (ofString "RESPONSE-DATA-FORMAT") by decide,
      validSingleton (show ValidStr (ofString "XML") by decide)⟩
  · exact ⟨show ValidStr (ofString "REST-PAYLOAD") by decide,
      validSingleton (show ValidStr [] by decide)⟩
  · exact ⟨show ValidStr (ofString "keywords") by decide, validSingleton hK⟩
  · exact ⟨show ValidStr (ofString "paginationInput.entriesPerPage") by decide,
      validSingleton (goItoa_valid epp)⟩

/-- An initial-segment test exhibits the remainder. -/
lemma startsW_exists {p s : GoStr} (h : startsW p s = true) : ∃ r, s = p ++ r := by
  induction p generalizing s with
  | nil => exact ⟨s, rfl⟩
  | cons a as ih =>
    cases s with
    | nil => simp [startsW] at h
    | cons b bs =>
      simp only [startsW, Bool.and_eq_true, beq_iff_eq] at h
      obtain ⟨r, hr⟩ := ih h.2
      exact ⟨r, by rw [List.cons_append, ← hr, h.1]⟩

/-- No itemFilter-shaped key is a fixed key: the fixed slices do not
answer for a filter key. -/
lemma lookupV_fixedParams_item (appID gid kw op : GoStr) (epp : Int) (r : GoStr) :
    lookupV (fixedParams appID gid kw op epp) (itemFilterTag ++ r) = [] := rfl

/-- Reading the built URL: the query parameters of the URL buildURL renders
are exactly the slices of its parameter map. -/
lemma parsedValues_buildURL {appID gid kw op : GoStr} {epp : Int} {filters : Values}
    (hA : ValidStr appID) (hG : ValidStr gid) (hK : ValidStr kw) (hO : ValidStr op)
    (hF : ValidV filters) {u : GoStr}
    (hu : buildURL appID gid kw op epp filters = .ok u) (k : GoStr) :
    parsedValues (rawQueryOf u) k =
      lookupV (buildParams appID gid kw op epp filters) k := by
  rw [buildURL_eq] at hu
  obtain rfl := (Except.ok.inj hu).symm
  rw [rawQueryOf_render]
  exact parsedValues_encodeV
    (validV_addAll (validV_fixedParams hA hG hK hO epp) hF)
    (nodup_keysOf_addAll (nodup_keysOf_fixedParams appID gid kw op epp) filters) k

/-- A map none of whose keys is the probe reads as the empty slice. -/
lemma lookupV_eq_nil_of_ne {f : Values} {k : GoStr} (h : ∀ p ∈ f, p.1 ≠ k) :
    lookupV f k = [] := by
  apply lookupV_eq_nil
  intro hm
  rcases List.mem_map.mp hm with ⟨p, hp, hpk⟩
  exact h p hp hpk

/-- An itemFilter-shaped key differs from any string whose first byte is
not 105, the byte of the letter i. -/
lemma itemTag_key_ne {k t : GoStr} (h : startsW itemFilterTag k = true)
    (hne : t.headD 0 ≠ 105) : k ≠ t := by
  obtain ⟨r, rfl⟩ := startsW_exists h
  intro he
  apply hne
  rw [← he]
  rfl

/-- No itemFilter-shaped key is among the eight fixed keys. -/
lemma itemTag_not_mem_fixedKeys {k : GoStr} (hk : startsW itemFilterTag k = true)
    (appID gid kw op : GoStr) (epp : Int) :
    k ∉ keysOf (fixedParams appID gid kw op epp) := by
  rw [keysOf_fixedParams]
  intro hm
  simp only [List.mem_cons, List.not_mem_nil, or_false] at hm
  rcases hm with h | h | h | h | h | h | h | h <;>
    exact itemTag_key_ne hk (by decide) h

/-! ### The claims -/

/-- Claim C1: for every application credential, marketplace identifier,
keyword string, operation name, page size and spec-shaped filter set, the
built URL contains exactly one keywords query parameter, whose value is the
keyword input, and exactly one paginationInput.entriesPerPage parameter,
whose value is the Itoa decimal rendering of the page size: parsing the
query of the URL back, the slice under each of those two keys is exactly
the one-element slice of the corresponding input. -/
theorem claim1_keywords_and_pagination (appID gid kw op : GoStr) (epp : Int)
    (filters : Values) (hA : ValidStr appID) (hG : ValidStr gid)
    (hK : ValidStr kw) (hO : ValidStr op) (hF : SpecFilters filters)
    (u : GoStr) (hu : buildURL appID gid kw op epp filters = .ok u) :
    parsedValues (rawQueryOf u) (ofString "keywords") = [kw] ∧
      parsedValues (rawQueryOf u) (ofString "paginationInput.entriesPerPage") =
        [goItoa epp] := by
  obtain ⟨hnd, hshape, hne, hvalid⟩ := hF
  have h := parsedValues_buildURL hA hG hK hO hvalid hu
  constructor
  · rw [h]
    unfold buildParams
    rw [lookupV_addAll hnd,
      lookupV_eq_nil_of_ne (fun p hp => itemTag_key_ne (hshape p hp) (by decide)),
      List.append_nil]
    rfl
  · rw [h]
    unfold buildParams
    rw [lookupV_addAll hnd,
      lookupV_eq_nil_of_ne (fun p hp => itemTag_key_ne (hshape p hp) (by decide)),
      List.append_nil]
    rfl

/-- Witness for C1: a concrete build with the keyword-search filter set. -/
theorem claim1_witness : ∃ u,
    buildURL (ofString "A") (ofString "EBAY-US") (ofString "DJM 900")
      (ofString "findItemsByKeywords") 10 (searchFilters true) = .ok u ∧
    parsedValues (rawQueryOf u) (ofString "keywords") = [ofString "DJM 900"] ∧
    parsedValues (rawQueryOf u) (ofString "paginationInput.entriesPerPage") =
      [goItoa 10] := by
  have hb := buildURL_eq (ofString "A") (ofString "EBAY-US") (ofString "DJM 900")
    (ofString "findItemsByKeywords") 10 (searchFilters true)
  have hc := claim1_keywords_and_pagination (ofString "A") (ofString "EBAY-US")
    (ofString "DJM 900") (ofString "findItemsByKeywords") 10 (searchFilters true)
    (by decide) (by decide) (by decide) (by decide) (by decide) _ hb
  exact ⟨_, hb, hc.1, hc.2⟩

/-- Claim C2: the keyword-search URL with binOnly true carries exactly one
listing-type value, AuctionWithBIN, and with binOnly false exactly three,
in the fixed order AuctionWithBIN, FixedPrice, Auction: the slices parsed
back under the indexed listing-type value keys. -/
theorem claim2_listing_types (appID gid kw : GoStr) (epp : Int) (binOnly : Bool)
    (hA : ValidStr appID) (hG : ValidStr gid) (hK : ValidStr kw) (u : GoStr)
    (hu : buildSearchURL appID gid kw epp binOnly = .ok u) :
    parsedValues (rawQueryOf u) (ofString "itemFilter(0).name") =
      [ofString "ListingType"] ∧
    parsedValues (rawQueryOf u) (ofString "itemFilter(0).value(0)") =
      [ofString "AuctionWithBIN"] ∧
    parsedValues (rawQueryOf u) (ofString "itemFilter(0).value(1)") =
      (if binOnly then [] else [ofString "FixedPrice"]) ∧
    parsedValues (rawQueryOf u) (ofString "itemFilter(0).value(2)") =
      (if binOnly then [] else [ofString "Auction"]) := by
  cases binOnly with
  | false =>
    have h := parsedValues_buildURL hA hG hK
      (show ValidStr (ofString "findItemsByKeywords") by decide)
      (show ValidV (searchFilters false) by decide) hu
    exact ⟨by rw [h]; rfl, by rw [h]; rfl, by rw [h]; rfl, by rw [h]; rfl⟩
  | true =>
    have h := parsedValues_buildURL hA hG hK
      (show ValidStr (ofString "findItemsByKeywords") by decide)
      (show ValidV (searchFilters true) by decide) hu
    exact ⟨by rw [h]; rfl, by rw [h]; rfl, by rw [h]; rfl, by rw [h]; rfl⟩

/-- Witness for C2: a concrete build with binOnly false shows the three
listing types in order. -/
theorem claim2_witness : ∃ u,
    buildSearchURL (ofString "A") (ofString "EBAY-DE") (ofString "x y") 5 false = .ok u ∧
    parsedValues (rawQueryOf u) (ofString "itemFilter(0).value(0)") =
      [ofString "AuctionWithBIN"] ∧
    parsedValues (rawQueryOf u) (ofString "itemFilter(0).value(1)") =
      [ofString "FixedPrice"] ∧
    parsedValues (rawQueryOf u) (ofString "itemFilter(0).value(2)") =
      [ofString "Auction"] := by
  have hb : buildSearchURL (ofString "A") (ofString "EBAY-DE") (ofString "x y") 5 false =
      .ok (renderGoURL endpointURL (encodeV (buildParams (ofString "A")
        (ofString "EBAY-DE") (ofString "x y") (ofString "findItemsByKeywords") 5
        (searchFilters false)))) :=
    buildURL_eq _ _ _ _ _ _
  have hc := claim2_listing_types (ofString "A") (ofString "EBAY-DE") (ofString "x y")
    5 false (by decide) (by decide) (by decide) _ hb
  exact ⟨_, hb, hc.2.1, hc.2.2.1, hc.2.2.2⟩

/-- Claim C3: the completed-items URL always carries a Condition filter
with exactly the two values Used then Unspecified, and a SoldItemsOnly
filter with exactly the single value true: the slices parsed back under the
indexed filter keys. -/
theorem claim3_sold_filters (appID gid kw : GoStr) (epp : Int)
    (hA : ValidStr appID) (hG : ValidStr gid) (hK : ValidStr kw) (u : GoStr)
    (hu : buildSoldURL appID gid kw epp = .ok u) :
    parsedValues (rawQueryOf u) (ofString "itemFilter(0).name") =
      [ofString "Condition"] ∧
    parsedValues (rawQueryOf u) (ofString "itemFilter(0).value(0)") =
      [ofString "Used"] ∧
    parsedValues (rawQueryOf u) (ofString "itemFilter(0).value(1)") =
      [ofString "Unspecified"] ∧
    parsedValues (rawQueryOf u) (ofString "itemFilter(0).value(2)") = [] ∧
    parsedValues (rawQueryOf u) (ofString "itemFilter(1).name") =
      [ofString "SoldItemsOnly"] ∧
    parsedValues (rawQueryOf u) (ofString "itemFilter(1).value(0)") =
      [ofString "true"] ∧
    parsedValues (rawQueryOf u) (ofString "itemFilter(1).value(1)") = [] := by
  have h := parsedValues_buildURL hA hG hK
    (show ValidStr (ofString "findCompletedItems") by decide)
    (show ValidV soldFilters by decide) hu
  exact ⟨by rw [h]; rfl, by rw [h]; rfl, by rw [h]; rfl, by rw [h]; rfl,
    by rw [h]; rfl, by rw [h]; rfl, by rw [h]; rfl⟩

/-- Witness for C3: a concrete completed-items build. -/
theorem claim3_witness : ∃ u,
    buildSoldURL (ofString "A") (ofString "EBAY-US") (ofString "djm") 3 = .ok u ∧
    parsedValues (rawQueryOf u) (ofString "itemFilter(0).value(0)") =
      [ofString "Used"] ∧
    parsedValues (rawQueryOf u) (ofString "itemFilter(0).value(1)") =
      [ofString "Unspecified"] ∧
    parsedValues (rawQueryOf u) (ofString "itemFilter(1).value(0)") =
      [ofString "true"] := by
  have hb : buildSoldURL (ofString "A") (ofString "EBAY-US") (ofString "djm") 3 =
      .ok (renderGoURL endpointURL (encodeV (buildParams (ofString "A")
        (ofString "EBAY-US") (ofString "djm") (ofString "findCompletedItems") 3
        soldFilters))) :=
    buildURL_eq _ _ _ _ _ _
  have hc := claim3_sold_filters (ofString "A") (ofString "EBAY-US") (ofString "djm")
    3 (by decide) (by decide) (by decide) _ hb
  exact ⟨_, hb, hc.2.1, hc.2.2.1, hc.2.2.2.2.2.1⟩

/-- Claim C6: round trip — parsing the query string of the built URL back
recovers exactly the filter pairs supplied to the URL builder, with the
order of the values of a multi-valued filter preserved: every supplied
filter key reads back exactly its supplied slice, and an itemFilter-shaped
key that was not supplied reads back empty. -/
theorem claim6_roundtrip (appID gid kw op : GoStr) (epp : Int) (filters : Values)
    (hA : ValidStr appID) (hG : ValidStr gid) (hK : ValidStr kw) (hO : ValidStr op)
    (hF : SpecFilters filters) (u : GoStr)
    (hu : buildURL appID gid kw op epp filters = .ok u) :
    (∀ k vs, (k, vs) ∈ filters → parsedValues (rawQueryOf u) k = vs) ∧
    (∀ k, startsW itemFilterTag k = true → k ∉ keysOf filters →
      parsedValues (rawQueryOf u) k = []) := by
  obtain ⟨hnd, hshape, hne, hvalid⟩ := hF
  have h := parsedValues_buildURL hA hG hK hO hvalid hu
  constructor
  · intro k vs hmem
    rw [h]
    unfold buildParams
    rw [lookupV_addAll hnd]
    obtain ⟨r, rfl⟩ := startsW_exists (hshape (k, vs) hmem)
    rw [lookupV_fixedParams_item, List.nil_append]
    exact lookupV_eq_of_mem hnd hmem
  · intro k hk hnotmem
    rw [h]
    unfold buildParams
    rw [lookupV_addAll hnd]
    obtain ⟨r, rfl⟩ := startsW_exists hk
    rw [lookupV_fixedParams_item, List.nil_append]
    exact lookupV_eq_nil hnotmem

/-- Witness for C6: a concrete multi-valued filter map round-trips through
a concrete build, values in order; an unsupplied filter key reads empty. -/
theorem claim6_witness : ∃ u,
    buildURL (ofString "A") (ofString "EBAY-FR") (ofString "k w")
      (ofString "findCompletedItems") 2
      [(ofString "itemFilter(9).name", [ofString "X", ofString "Y"])] = .ok u ∧
    parsedValues (rawQueryOf u) (ofString "itemFilter(9).name") =
      [ofString "X", ofString "Y"] ∧
    parsedValues (rawQueryOf u) (ofString "itemFilter(3).name") = [] := by
  have hb := buildURL_eq (ofString "A") (ofString "EBAY-FR") (ofString "k w")
    (ofString "findCompletedItems") 2
    [(ofString "itemFilter(9).name", [ofString "X", ofString "Y"])]
  have hc := claim6_roundtrip (ofString "A") (ofString "EBAY-FR") (ofString "k w")
    (ofString "findCompletedItems") 2
    [(ofString "itemFilter(9).name", [ofString "X", ofString "Y"])]
    (by decide) (by decide) (by decide) (by decide) (by decide) _ hb
  exact ⟨_, hb, hc.1 _ _ (by decide), hc.2 _ (by decide) (by decide)⟩

/-- Claim C8: the URL builder can fail only when the constant endpoint
fails to parse — and the endpoint does parse, so the error branch is
unreachable and buildURL returns without error for every input. -/
theorem claim8_endpoint_unreachable (appID gid kw op : GoStr) (epp : Int)
    (filters : Values) :
    goURLParse endpointStr = some endpointURL ∧
      ∃ u, buildURL appID gid kw op epp filters = .ok u :=
  ⟨goURLParse_endpoint, _, buildURL_eq appID gid kw op epp filters⟩

/-- Claim C10: URL construction is deterministic — the model of the
builders is a function of the credential and the inputs, and the canonical
key order of the query encoding makes the built URL invariant under the
unspecified iteration order of the Go filter map, modelled as invariance of
buildURL under permutation of the filter association list. -/
theorem claim10_deterministic (appID gid kw op : GoStr) (epp : Int)
    (f f2 : Values) (hF : SpecFilters f) (hp : List.Perm f f2) :
    buildURL appID gid kw op epp f = buildURL appID gid kw op epp f2 := by
  obtain ⟨hnd, hshape, hne, hvalid⟩ := hF
  have hkp : (keysOf f).Perm (keysOf f2) := by
    unfold keysOf
    exact hp.map _
  have hnd2 : (keysOf f2).Nodup := hkp.nodup_iff.mp hnd
  have hshape2 : ∀ p ∈ f2, startsW itemFilterTag p.1 = true :=
    fun p hp2 => hshape p (hp.mem_iff.mpr hp2)
  have hne2 : ∀ p ∈ f2, p.2 ≠ [] := fun p hp2 => hne p (hp.mem_iff.mpr hp2)
  have hdis : ∀ k ∈ keysOf f, k ∉ keysOf (fixedParams appID gid kw op epp) := by
    intro k hk
    rcases List.mem_map.mp hk with ⟨p, hpmem, rfl⟩
    exact itemTag_not_mem_fixedKeys (hshape p hpmem) _ _ _ _ _
  have hdis2 : ∀ k ∈ keysOf f2, k ∉ keysOf (fixedParams appID gid kw op epp) := by
    intro k hk
    rcases List.mem_map.mp hk with ⟨p, hpmem, rfl⟩
    exact itemTag_not_mem_fixedKeys (hshape2 p hpmem) _ _ _ _ _
  have hk1 := keysOf_addAll hnd hdis hne
  have hk2 := keysOf_addAll hnd2 hdis2 hne2
  have hparams : (keysOf (addAll (fixedParams appID gid kw op epp) f)).Perm
      (keysOf (addAll (fixedParams appID gid kw op epp) f2)) := by
    rw [hk1, hk2]
    exact List.Perm.append_left _ hkp
  have hsorted :
      List.insertionSort leR (keysOf (addAll (fixedParams appID gid kw op epp) f)) =
      List.insertionSort leR (keysOf (addAll (fixedParams appID gid kw op epp) f2)) :=
    List.eq_of_perm_of_sorted
      ((List.perm_insertionSort leR _).trans
        (hparams.trans (List.perm_insertionSort leR _).symm))
      (List.sorted_insertionSort leR _) (List.sorted_insertionSort leR _)
  have hfun : (fun k => (lookupV (addAll (fixedParams appID gid kw op epp) f) k).map
        fun x => (k, x)) =
      (fun k => (lookupV (addAll (fixedParams appID gid kw op epp) f2) k).map
        fun x => (k, x)) := by
    funext k
    rw [lookupV_addAll hnd, lookupV_addAll hnd2, lookupV_perm hp hnd k]
  have henc : encodeV (buildParams appID gid kw op epp f) =
      encodeV (buildParams appID gid kw op epp f2) := by
    unfold buildParams encodeV
    rw [hsorted, hfun]
  rw [buildURL_eq, buildURL_eq, henc]

/-- Witness for C10: two orderings of a concrete filter map give the same
URL. -/
theorem claim10_witness :
    buildURL (ofString "A") (ofString "EBAY-IT") (ofString "q")
        (ofString "findItemsByKeywords") 4
        [(ofString "itemFilter(0).name", [ofString "ListingType"]),
         (ofString "itemFilter(0).value(0)", [ofString "AuctionWithBIN"])] =
      buildURL (ofString "A") (ofString "EBAY-IT") (ofString "q")
        (ofString "findItemsByKeywords") 4
        [(ofString "itemFilter(0).value(0)", [ofString "AuctionWithBIN"]),
         (ofString "itemFilter(0).name", [ofString "ListingType"])] :=
  claim10_deterministic _ _ _ _ _ _ _ (by decide) (List.Perm.swap _ _ _)

/-! ### Helpers for the request executor claims -/

/-- Helper: once the search URL is built, the inline body of
FindItemsByKeywords computes findItems on that URL, for any values of the
unused findItems parameters. -/
lemma findItemsByKeywords_eq {decR : Decoder FindItemsResponse}
    {decE : Decoder ErrorMessage} {get : Transport} {appID gid kw : GoStr}
    {epp : Int} {binOnly : Bool} {u : GoStr}
    (hu : buildSearchURL appID gid kw epp binOnly = .ok u)
    (gid2 kw2 : GoStr) (epp2 : Int) :
    FindItemsByKeywords decR decE get appID gid kw epp binOnly =
      findItems decR decE get gid2 kw2 epp2 u := by
  unfold FindItemsByKeywords findItems
  rw [hu]

/-- Helper: outcome analysis of findItems — either no error together with
a successfully decoded envelope of the 200 body, or an error together with
the zero envelope. -/
lemma findItems_cases (decR : Decoder FindItemsResponse)
    (decE : Decoder ErrorMessage) (get : Transport) (g k : GoStr) (e : Int)
    (u : GoStr) :
    ((findItems decR decE get g k e u).2 = none ∧ (get u).2.1 = 200 ∧
      (get u).2.2 = none ∧
      decR (get u).1 = .ok (findItems decR decE get g k e u).1) ∨
    ((∃ er, (findItems decR decE get g k e u).2 = some er) ∧
      (findItems decR decE get g k e u).1 = FindItemsResponse.zero) := by
  unfold findItems
  rcases hget : get u with ⟨body, st, err⟩
  cases err with
  | some e2 => exact Or.inr ⟨⟨.transport e2, by simp [hget]⟩, by simp [hget]⟩
  | none =>
    by_cases hst : st = 200
    · subst hst
      cases hdec : decR body with
      | error msg =>
        exact Or.inr ⟨⟨.decode msg, by simp [hget, hdec]⟩, by simp [hget, hdec]⟩
      | ok resp =>
        exact Or.inl ⟨by simp [hget, hdec], by simp [hget], by simp [hget],
          by simp [hget, hdec]⟩
    · cases hdec : decE body with
      | error msg =>
        exact Or.inr ⟨⟨.decode msg, by simp [hget, hdec, hst]⟩,
          by simp [hget, hdec, hst]⟩
      | ok em =>
        exact Or.inr ⟨⟨.upstream em.error.message, by simp [hget, hdec, hst]⟩,
          by simp [hget, hdec, hst]⟩

/-- Helper: outcome analysis of FindSoldItems on its built URL. -/
lemma findSoldItems_cases {decC : Decoder FindCompletedItemsResponse}
    {decE : Decoder ErrorMessage} {get : Transport} {appID gid kw : GoStr}
    {epp : Int} {u : GoStr} (hu : buildSoldURL appID gid kw epp = .ok u) :
    ((FindSoldItems decC decE get appID gid kw epp).2 = none ∧ (get u).2.1 = 200 ∧
      (get u).2.2 = none ∧
      decC (get u).1 = .ok (FindSoldItems decC decE get appID gid kw epp).1) ∨
    ((∃ er, (FindSoldItems decC decE get appID gid kw epp).2 = some er) ∧
      (FindSoldItems decC decE get appID gid kw epp).1 =
        FindCompletedItemsResponse.zero) := by
  unfold FindSoldItems
  rw [hu]
  rcases hget : get u with ⟨body, st, err⟩
  cases err with
  | some e2 => exact Or.inr ⟨⟨.transport e2, by simp [hget]⟩, by simp [hget]⟩
  | none =>
    by_cases hst : st = 200
    · subst hst
      cases hdec : decC body with
      | error msg =>
        exact Or.inr ⟨⟨.decode msg, by simp [hget, hdec]⟩, by simp [hget, hdec]⟩
      | ok resp =>
        exact Or.inl ⟨by simp [hget, hdec], by simp [hget], by simp [hget],
          by simp [hget, hdec]⟩
    · cases hdec : decE body with
      | error msg =>
        exact Or.inr ⟨⟨.decode msg, by simp [hget, hdec, hst]⟩,
          by simp [hget, hdec, hst]⟩
      | ok em =>
        exact Or.inr ⟨⟨.upstream em.error.message, by simp [hget, hdec, hst]⟩,
          by simp [hget, hdec, hst]⟩

/-- Claim C9: the unexported findItems is the request-and-decode tail of
FindItemsByKeywords — for the built URL, the same decoders and the same
transport, FindItemsByKeywords returns exactly what findItems returns, and
the globalID, keywords and entriesPerPage parameters of findItems have no
effect: any values may stand in for them. -/
theorem claim9_findItems_refines (decR : Decoder FindItemsResponse)
    (decE : Decoder ErrorMessage) (get : Transport) (appID gid kw : GoStr)
    (epp : Int) (binOnly : Bool) (gid2 kw2 : GoStr) (epp2 : Int) (u : GoStr)
    (hu : buildSearchURL appID gid kw epp binOnly = .ok u) :
    FindItemsByKeywords decR decE get appID gid kw epp binOnly =
      findItems decR decE get gid2 kw2 epp2 u :=
  findItemsByKeywords_eq hu gid2 kw2 epp2

/-- Witness for C9 at a concrete build, transport and decoders, with
differing junk values for the unused findItems parameters. -/
theorem claim9_witness :
    FindItemsByKeywords (fun _ => .ok FindItemsResponse.zero) (fun _ => .error [])
        (fun _ => ([], 200, none)) (ofString "A") (ofString "EBAY-US")
        (ofString "q") 1 true =
      findItems (fun _ => .ok FindItemsResponse.zero) (fun _ => .error [])
        (fun _ => ([], 200, none)) (ofString "other") (ofString "words") 99
        (renderGoURL endpointURL (encodeV (buildParams (ofString "A")
          (ofString "EBAY-US") (ofString "q") (ofString "findItemsByKeywords") 1
          (searchFilters true)))) :=
  claim9_findItems_refines _ _ _ _ _ _ _ _ _ _ _ _ (buildURL_eq _ _ _ _ _ _)

/-- Claim C4: a search call whose transport returns status 200 with a body
the success decoder rejects fails with that decode error and returns the
zero-value envelope — no partial item list accompanies the error — for
both search operations. -/
theorem claim4_decode_failure_zero_envelope :
    (∀ (decR : Decoder FindItemsResponse) (decE : Decoder ErrorMessage)
      (get : Transport) (appID gid kw : GoStr) (epp : Int) (binOnly : Bool)
      (u body msg : GoStr),
      buildSearchURL appID gid kw epp binOnly = .ok u →
      get u = (body, 200, none) →
      decR body = .error msg →
      FindItemsByKeywords decR decE get appID gid kw epp binOnly =
        (FindItemsResponse.zero, some (.decode msg)) ∧
      FindItemsResponse.zero.items = []) ∧
    (∀ (decC : Decoder FindCompletedItemsResponse) (decE : Decoder ErrorMessage)
      (get : Transport) (appID gid kw : GoStr) (epp : Int) (u body msg : GoStr),
      buildSoldURL appID gid kw epp = .ok u →
      get u = (body, 200, none) →
      decC body = .error msg →
      FindSoldItems decC decE get appID gid kw epp =
        (FindCompletedItemsResponse.zero, some (.decode msg)) ∧
      FindCompletedItemsResponse.zero.items = []) := by
  constructor
  · intro decR decE get appID gid kw epp binOnly u body msg hu hget hdec
    refine ⟨?_, rfl⟩
    rw [findItemsByKeywords_eq hu gid kw epp]
    unfold findItems
    simp [hget, hdec]
  · intro decC decE get appID gid kw epp u body msg hu hget hdec
    refine ⟨?_, rfl⟩
    unfold FindSoldItems
    rw [hu]
    simp [hget, hdec]

/-- Witness for C4: a concrete transport returning 200 with a body the
concrete decoder rejects. -/
theorem claim4_witness :
    FindItemsByKeywords (fun _ => .error (ofString "syntax")) (fun _ => .error [])
        (fun _ => (ofString "<bad", 200, none)) (ofString "A") (ofString "EBAY-US")
        (ofString "q") 1 false =
      (FindItemsResponse.zero, some (.decode (ofString "syntax"))) :=
  (claim4_decode_failure_zero_envelope.1 (fun _ => .error (ofString "syntax"))
    (fun _ => .error []) (fun _ => (ofString "<bad", 200, none)) (ofString "A")
    (ofString "EBAY-US") (ofString "q") 1 false
    (renderGoURL endpointURL (encodeV (buildParams (ofString "A")
      (ofString "EBAY-US") (ofString "q") (ofString "findItemsByKeywords") 1
      (searchFilters false))))
    (ofString "<bad") (ofString "syntax")
    (buildURL_eq _ _ _ _ _ _) rfl rfl).1

/-- Claim C5: a search call whose transport returns a non-200 status fails
with an upstream error whose message equals the message field of the
decoded fault payload; if the fault payload itself fails to decode, the
call fails with that decode error — for both search operations. -/
theorem claim5_upstream_fault :
    (∀ (decR : Decoder FindItemsResponse) (decE : Decoder ErrorMessage)
      (get : Transport) (appID gid kw : GoStr) (epp : Int) (binOnly : Bool)
      (u body : GoStr) (st : Int),
      buildSearchURL appID gid kw epp binOnly = .ok u →
      get u = (body, st, none) → st ≠ 200 →
      (∀ em, decE body = .ok em →
        FindItemsByKeywords decR decE get appID gid kw epp binOnly =
          (FindItemsResponse.zero, some (.upstream em.error.message))) ∧
      (∀ msg, decE body = .error msg →
        FindItemsByKeywords decR decE get appID gid kw epp binOnly =
          (FindItemsResponse.zero, some (.decode msg)))) ∧
    (∀ (decC : Decoder FindCompletedItemsResponse) (decE : Decoder ErrorMessage)
      (get : Transport) (appID gid kw : GoStr) (epp : Int)
      (u body : GoStr) (st : Int),
      buildSoldURL appID gid kw epp = .ok u →
      get u = (body, st, none) → st ≠ 200 →
      (∀ em, decE body = .ok em →
        FindSoldItems decC decE get appID gid kw epp =
          (FindCompletedItemsResponse.zero, some (.upstream em.error.message))) ∧
      (∀ msg, decE body = .error msg →
        FindSoldItems decC decE get appID gid kw epp =
          (FindCompletedItemsResponse.zero, some (.decode msg)))) := by
  constructor
  · intro decR decE get appID gid kw epp binOnly u body st hu hget hst
    constructor
    · intro em hdec
      rw [findItemsByKeywords_eq hu gid kw epp]
      unfold findItems
      simp [hget, hdec, hst]
    · intro msg hdec
      rw [findItemsByKeywords_eq hu gid kw epp]
      unfold findItems
      simp [hget, hdec, hst]
  · intro decC decE get appID gid kw epp u body st hu hget hst
    constructor
    · intro em hdec
      unfold FindSoldItems
      rw [hu]
      simp [hget, hdec, hst]
    · intro msg hdec
      unfold FindSoldItems
      rw [hu]
      simp [hget, hdec, hst]

/-- Witness for C5: a 404 with a concrete decodable fault payload yields
the upstream error with the fault message. -/
theorem claim5_witness :
    FindSoldItems (fun _ => .ok FindCompletedItemsResponse.zero)
        (fun _ => .ok ⟨⟨[], [], [], [], ofString "Service unavailable", []⟩⟩)
        (fun _ => (ofString "<errorMessage/>", 404, none)) (ofString "A")
        (ofString "EBAY-ES") (ofString "q") 2 =
      (FindCompletedItemsResponse.zero,
        some (.upstream (ofString "Service unavailable"))) :=
  (claim5_upstream_fault.2 (fun _ => .ok FindCompletedItemsResponse.zero)
    (fun _ => .ok ⟨⟨[], [], [], [], ofString "Service unavailable", []⟩⟩)
    (fun _ => (ofString "<errorMessage/>", 404, none)) (ofString "A")
    (ofString "EBAY-ES") (ofString "q") 2
    (renderGoURL endpointURL (encodeV (buildParams (ofString "A")
      (ofString "EBAY-ES") (ofString "q") (ofString "findCompletedItems") 2
      soldFilters)))
    (ofString "<errorMessage/>") 404
    (buildURL_eq _ _ _ _ _ _) rfl (by decide)).1
    ⟨⟨[], [], [], [], ofString "Service unavailable", []⟩⟩ rfl

/-- Claim C7: each search call produces exactly one of a decoded envelope
and a fault — when the error output is empty the returned envelope is one
the success decoder produced from the 200 transport body of the built URL,
and when an error is present the envelope is the zero value; the two cases
exclude each other, an option being never both none and some — for both
search operations. -/
theorem claim7_exactly_one (decR : Decoder FindItemsResponse)
    (decC : Decoder FindCompletedItemsResponse) (decE : Decoder ErrorMessage)
    (get : Transport) (appID gid kw : GoStr) (epp : Int) (binOnly : Bool) :
    (∃ u, buildSearchURL appID gid kw epp binOnly = .ok u ∧
      (((FindItemsByKeywords decR decE get appID gid kw epp binOnly).2 = none ∧
        (get u).2.1 = 200 ∧ (get u).2.2 = none ∧
        decR (get u).1 =
          .ok (FindItemsByKeywords decR decE get appID gid kw epp binOnly).1) ∨
       ((∃ e, (FindItemsByKeywords decR decE get appID gid kw epp binOnly).2 = some e) ∧
        (FindItemsByKeywords decR decE get appID gid kw epp binOnly).1 =
          FindItemsResponse.zero))) ∧
    (∃ u, buildSoldURL appID gid kw epp = .ok u ∧
      (((FindSoldItems decC decE get appID gid kw epp).2 = none ∧
        (get u).2.1 = 200 ∧ (get u).2.2 = none ∧
        decC (get u).1 = .ok (FindSoldItems decC decE get appID gid kw epp).1) ∨
       ((∃ e, (FindSoldItems decC decE get appID gid kw epp).2 = some e) ∧
        (FindSoldItems decC decE get appID gid kw epp).1 =
          FindCompletedItemsResponse.zero))) := by
  constructor
  · refine ⟨_, buildURL_eq _ _ _ _ _ _, ?_⟩
    rw [findItemsByKeywords_eq (buildURL_eq _ _ _ _ _ _) gid kw epp]
    exact findItems_cases decR decE get gid kw epp _
  · exact ⟨_, buildURL_eq _ _ _ _ _ _, findSoldItems_cases (buildURL_eq _ _ _ _ _ _)⟩

end Ebay
